import Mathlib

/-!
# Verification of the wdcloader board protocol and file codecs

Shallow embedding of the core of `wdcloader` (a host-side loader for WDC
65xxx development boards) and proofs about it.

Embedded modules (from `src/wdcloader/`):
* `command_codes.py`  — the `Command_Code` enum (single-byte op-codes);
* `board_types.py`    — the `Board_Type` enum;
* `board_utilities.py`— `BoardUtilities.send_command`,
  `BoardUtilities.detect_board`, `BoardCommands.read_memory`,
  `BoardCommands.write_memory`, `BoardCommands.execute_memory`;
* `loader_utilities.py` — `save_records` / `load_records` (SREC subset)
  and `save_binary` / `load_binary` (WDC binary format).

Modelling conventions:
* bytes are `Nat` values (masking such as `& 0xFF` becomes `% 256`);
* the serial port is a `SerState`: `rx` is the stream of bytes the board
  will deliver to `ser.read`, `tx` is the trace of bytes written with
  `ser.write` (a read with a timeout returns whatever is available, i.e.
  at most the requested count — `List.take`);
* Python exceptions become `Except String`;
* files are pure values: a text file is its list of lines (`List (List Char)`,
  each line without its terminating newline — Python string slicing in
  `load_records` never reaches the newline on the inputs considered here),
  a binary file is a `List Nat` of its bytes.
-/

namespace Wdcloader

/-! ## Serial link model -/

/-- State of the serial link: `rx` the bytes still available to be read
from the board, `tx` the trace of all bytes written to the board so far. -/
structure SerState where
  rx : List Nat
  tx : List Nat
deriving DecidableEq, Repr

/-- Python `ser.write(bs)`: append to the transmit trace. -/
def SerState.write (s : SerState) (bs : List Nat) : SerState :=
  ⟨s.rx, s.tx ++ bs⟩

/-- Python `ser.read(n)`: return up to `n` bytes — whatever is available before the
timeout — and consume them from the receive stream. -/
def SerState.read (s : SerState) (n : Nat) : List Nat × SerState :=
  (s.rx.take n, ⟨s.rx.drop n, s.tx⟩)

/-- Python `int.to_bytes(length=w, byteorder='little')` on a value already masked
to fit in `w` bytes. -/
def toLE (w : Nat) (n : Nat) : List Nat :=
  (List.range w).map (fun i => n / 256 ^ i % 256)

/-! ## `command_codes.py`: the `Command_Code` enum

Each command is a single byte (`cmd.value` in Python is a one-byte
`bytes` literal). -/

inductive Command_Code where
  | SYNC | ECHO | WRITE_MEM | READ_MEM | GET_INFO | EXEC_DEBUG
  | EXEC_MEM | WRITE_FLASH | READ_FLASH | CLEAR_FLASH | CHECK_FLASH
  | EXEC_FLASH
deriving DecidableEq, Repr

/-- The single byte of `cmd.value`. -/
def Command_Code.value : Command_Code → Nat
  | .SYNC => 0x00
  | .ECHO => 0x01
  | .WRITE_MEM => 0x02
  | .READ_MEM => 0x03
  | .GET_INFO => 0x04
  | .EXEC_DEBUG => 0x05
  | .EXEC_MEM => 0x06
  | .WRITE_FLASH => 0x07
  | .READ_FLASH => 0x08
  | .CLEAR_FLASH => 0x09
  | .CHECK_FLASH => 0x0A
  | .EXEC_FLASH => 0x0B

/-! ## `board_types.py`: the `Board_Type` enum -/

inductive Board_Type where
  | W65C02SXB | W65C816SXB | MyMENSCH_RevA | MyMENSCH_RevB | MyMENSCH_RevC
  | UNKNOWN
deriving DecidableEq, Repr

/-- The Python enum value of each member. -/
def Board_Type.value : Board_Type → Nat
  | .W65C02SXB => 0
  | .W65C816SXB => 1
  | .MyMENSCH_RevA => 2
  | .MyMENSCH_RevB => 3
  | .MyMENSCH_RevC => 4
  | .UNKNOWN => 100

/-- Python `Board_Type(n)` — enum lookup by value; raises `ValueError`
when no member has value `n`. -/
def Board_Type.ofValue (n : Nat) : Except String Board_Type :=
  match n with
  | 0 => .ok .W65C02SXB
  | 1 => .ok .W65C816SXB
  | 2 => .ok .MyMENSCH_RevA
  | 3 => .ok .MyMENSCH_RevB
  | 4 => .ok .MyMENSCH_RevC
  | 100 => .ok .UNKNOWN
  | _ => .error "ValueError: not a valid Board_Type"

/-! ## `board_utilities.py`: `BoardUtilities` -/

/-- Source `BoardUtilities.send_command(ser, cmd)`:
write the sync bytes `0x55 0xAA`, read one acknowledgement byte; if no
byte arrives or it is not `0xCC`, raise `RuntimeError`; otherwise write
the command byte. -/
def send_command (s : SerState) (cmd : Command_Code) : Except String SerState :=
  let s1 := s.write [0x55, 0xAA]
  let (data, s2) := s1.read 1
  match data with
  | [] => .error "No response from SXB --- Try to reset the board."
  | b :: _ =>
    if b ≠ 0xCC then .error "No response from SXB --- Try to reset the board."
    else .ok (s2.write [cmd.value])

/-- Source `BoardUtilities.detect_board(info_data)`.

Python dispatches on `info_data[3]` with a `match` statement; the case
arms are modelled as a conditional chain with the same fall-through to
`Board_Type.UNKNOWN` when an arm's inner condition fails. -/
def detect_board (info_data : List Nat) : Except String Board_Type :=
  if info_data.length ≠ 29 then
    .error "The info data block should be exactly 29 bytes!"
  else if info_data.getD 3 0 = 0x00 then
    if info_data.getD 4 0 = 0x58 then .ok .W65C02SXB else .ok .UNKNOWN
  else if info_data.getD 3 0 = 0x01 then
    if info_data.getD 4 0 = 0x58 then .ok .W65C816SXB else .ok .UNKNOWN
  else if info_data.getD 3 0 = 0x41 ∨ info_data.getD 3 0 = 0x42
      ∨ info_data.getD 3 0 = 0x43 then
    if info_data.getD 0 0 = 0x4D ∧ info_data.getD 1 0 = 0x59
        ∧ info_data.getD 2 0 = 0x4D then
      Board_Type.ofValue (Board_Type.MyMENSCH_RevA.value + (info_data.getD 3 0 - 0x41))
    else .ok .UNKNOWN
  else .ok .UNKNOWN

/-! ## `board_utilities.py`: `BoardCommands` -/

def STATE_ADDRESS : Nat := 0x7E00
def STATE_SIZE : Nat := 16

/-- Source `BoardCommands.read_memory(ser, address, size)`:
mask address to 3 bytes and size to 2 bytes, handshake + `READ_MEM`,
write the address (3 bytes LE) and size (2 bytes LE), then read up to
`size` bytes and return them. -/
def read_memory (s : SerState) (address size : Nat) :
    Except String (List Nat × SerState) := do
  let address := address % 0x1000000
  let size := size % 0x10000
  let s ← send_command s .READ_MEM
  let s := s.write (toLE 3 address)
  let s := s.write (toLE 2 size)
  .ok (s.read size)

/-- Source `BoardCommands.write_memory(ser, address, data)`:
mask address to 3 bytes, truncate `data` to its first
`len(data) & 0xFFFF` bytes (the Python is `data[:(len(data) & 0xFFFF)]`),
handshake + `WRITE_MEM`, write the address (3 bytes LE), the truncated
length (2 bytes LE), then the payload. -/
def write_memory (s : SerState) (address : Nat) (data : List Nat) :
    Except String SerState := do
  let address := address % 0x1000000
  let data := data.take (data.length % 0x10000)
  let s ← send_command s .WRITE_MEM
  let s := s.write (toLE 3 address)
  let s := s.write (toLE 2 data.length)
  .ok (s.write data)

/-- The 16-byte CPU state block built by `execute_memory` for the SXB
boards: zero-filled, bytes 6–7 the (already 16-bit-masked) address in
little-endian order (the PC), bytes 10–11 `0xFF 0x01` (the SP),
bytes 12–13 `0x34 0x01` (status register and CPU-mode flag). -/
def sxbStateBlock (address : Nat) : List Nat :=
  [0, 0, 0, 0, 0, 0, address % 256, address / 256 % 256, 0, 0,
   0xFF, 0x01, 0x34, 0x01, 0, 0]

/-- Source `BoardCommands.execute_memory(ser, address, b_type)`. -/
def execute_memory (s : SerState) (address : Nat) (b_type : Board_Type) :
    Except String SerState :=
  match b_type with
  | .W65C02SXB | .W65C816SXB => do
    let address := address % 0x10000
    let s ← write_memory s STATE_ADDRESS (sxbStateBlock address)
    send_command s .EXEC_DEBUG
  | .MyMENSCH_RevA | .MyMENSCH_RevB | .MyMENSCH_RevC => do
    let address := address % 0x1000000
    let s ← send_command s .EXEC_MEM
    .ok (s.write (toLE 3 address))
  | .UNKNOWN => .error "Cannot execute memory on an unknown board!"

/-! ## Hexadecimal text: `'%.2x' % v`, `'%.6x' % v`, `int(s, 16)`,
`bytearray.fromhex(s)` -/

/-- The lowercase hexadecimal digit character for `n < 16`
(as produced by Python's `%x` formatting). -/
def hexDigitChar (n : Nat) : Char :=
  if n < 10 then Char.ofNat (48 + n) else Char.ofNat (87 + n)

/-- The value of a hexadecimal digit character, `none` when the character
is not a hex digit (where Python's `int(..., 16)` / `fromhex` raise). -/
def hexDigitVal (c : Char) : Option Nat :=
  if 48 ≤ c.toNat ∧ c.toNat ≤ 57 then some (c.toNat - 48)
  else if 97 ≤ c.toNat ∧ c.toNat ≤ 102 then some (c.toNat - 87)
  else if 65 ≤ c.toNat ∧ c.toNat ≤ 70 then some (c.toNat - 55)
  else none

/-- The hexadecimal digits of `n`, least significant first
(empty for `0`). -/
def natToHexRev (n : Nat) : List Char :=
  if h : n = 0 then []
  else hexDigitChar (n % 16) :: natToHexRev (n / 16)
decreasing_by exact Nat.div_lt_self (Nat.pos_of_ne_zero h) (by omega)

/-- Python's `'%.{w}x' % n`: lowercase hexadecimal, zero-padded on the
left to at least `w` digits, never truncated. -/
def toHexPad (w n : Nat) : List Char :=
  let ds := if n = 0 then ['0'] else (natToHexRev n).reverse
  List.replicate (w - ds.length) '0' ++ ds

/-- Accumulating loop of `int(s, 16)`. -/
def parseHexLoop (acc : Nat) : List Char → Option Nat
  | [] => some acc
  | c :: cs =>
    match hexDigitVal c with
    | none => none
    | some v => parseHexLoop (acc * 16 + v) cs

/-- Python `int(s, 16)` on the digit strings arising here: `none` (Python:
`ValueError`) on an empty string or a non-hex-digit character. -/
def parseHex (s : List Char) : Option Nat :=
  if s = [] then none else parseHexLoop 0 s

/-- Python `bytearray.fromhex(s)` on the strings arising here (which contain no
spaces): pairs of hex digits; `none` (Python: `ValueError`) on an odd
number of digits or a non-digit character. -/
def fromhex : List Char → Option (List Nat)
  | [] => some []
  | [_] => none
  | c1 :: c2 :: rest => do
    let v1 ← hexDigitVal c1
    let v2 ← hexDigitVal c2
    let r ← fromhex rest
    pure ((v1 * 16 + v2) :: r)

/-- Python list/string slicing `l[a:b]` for `0 ≤ a ≤ b` (the only shape
used by `load_records`). -/
def pySlice (l : List Char) (a b : Nat) : List Char :=
  (l.drop a).take (b - a)

/-! ## `loader_utilities.py`: SREC codec -/

/-- Source `LoaderUtilities.save_records(address, data)`, as the list of lines it
writes (each line without its terminating `'\n'`).

The source loops over `data_len`/`offset`, consuming
`count = 32 if data_len > 32 else data_len` bytes per line; this is
modelled by recursing on the remaining suffix of `data`.  The running
`check` is accumulated exactly as in the source: `check = count + 4`,
then `check = check + addr_part & 0xFF` three times (Python precedence:
`(check + addr_part) & 0xFF`), then each chunk byte is added without
masking, and finally `check = 0xFF - (check & 0xFF)`. -/
def save_records (address : Nat) (data : List Nat) : List (List Char) :=
  if h : data = [] then []
  else
    let count := if data.length > 32 then 32 else data.length
    let chunk := data.take count
    let check1 := (count + 4 + address) % 256
    let check2 := (check1 + address / 256) % 256
    let check3 := (check2 + address / 65536) % 256
    let checksum := 0xFF - ((check3 + chunk.sum) % 256)
    (['S', '2'] ++ toHexPad 2 (count + 4) ++ toHexPad 6 address
        ++ (chunk.map (toHexPad 2)).flatten ++ toHexPad 2 checksum)
      :: save_records (address + count) (data.drop count)
termination_by data.length
decreasing_by
  simp only [List.length_drop]
  have : 0 < data.length := List.length_pos.mpr h
  split <;> omega

/-- Source `LoaderUtilities.load_records(lines)`, modelled as the sequence of
`(address, data)` arguments this procedure passes to
`BoardCommands.write_memory`, in file order, together with the final
`total`.  `none` models a raised `ValueError` from `int(...)` or
`fromhex(...)` (the file is closed and the exception propagates).

Caveat: the source computes `count = int(line[2:4], 16) - 3` (resp. `- 4`)
with Python integers, which can go negative on malformed byte-count
fields; here `count` is a truncated `Nat` difference.  Every input
considered in the theorems below has a byte-count field of at least 5, on
which the two agree. -/
def load_records : List (List Char) → Option (List (Nat × List Nat) × Nat)
  | [] => some ([], 0)
  | line :: rest =>
    match line with
    | 'S' :: '1' :: _ => do
      let n ← parseHex (pySlice line 2 4)
      let count := n - 3
      let address ← parseHex (pySlice line 4 8)
      let data ← fromhex (pySlice line 8 (count * 2 + 8))
      let (recs, total) ← load_records rest
      pure ((address, data) :: recs, count + total)
    | 'S' :: '2' :: _ => do
      let n ← parseHex (pySlice line 2 4)
      let count := n - 4
      let address ← parseHex (pySlice line 4 10)
      let data ← fromhex (pySlice line 10 (count * 2 + 10))
      let (recs, total) ← load_records rest
      pure ((address, data) :: recs, count + total)
    | _ => load_records rest

/-! ## `loader_utilities.py`: WDC binary codec -/

/-- Source `LoaderUtilities.save_binary(address, data)`, as the list of bytes it
writes to the file: the marker byte `0x5A`, three little-endian bytes of
the address, three little-endian bytes of `len(data)`, then `data`. -/
def save_binary (address : Nat) (data : List Nat) : List Nat :=
  [0x5A,
   address % 256, address / 256 % 256, address / 65536 % 256,
   data.length % 256, data.length / 256 % 256, data.length / 65536 % 256]
    ++ data

/-- The record loop of `LoaderUtilities.load_binary`, on the file bytes
after the marker: repeatedly read a 6-byte header (break on a short
read), decode `address` and `size`, read `size` payload bytes (break when
the payload is empty or short — `if not data or len(data) != size`),
emit the `write_memory` argument pair and add `size` to the total. -/
def load_binary_loop (bs : List Nat) : List (Nat × List Nat) × Nat :=
  let header := bs.take 6
  if h6 : header.length ≠ 6 then ([], 0)
  else
    let a1 := header.getD 0 0
    let a2 := header.getD 1 0
    let a3 := header.getD 2 0
    let s1 := header.getD 3 0
    let s2 := header.getD 4 0
    let s3 := header.getD 5 0
    let address := a1 + a2 * 256 + a3 * 65536
    let size := s1 + s2 * 256 + s3 * 65536
    let data := (bs.drop 6).take size
    if data = [] ∨ data.length ≠ size then ([], 0)
    else
      let (recs, total) := load_binary_loop (bs.drop (6 + size))
      ((address, data) :: recs, size + total)
termination_by bs.length
decreasing_by
  simp only [List.length_drop]
  rw [not_not] at h6
  have h : (bs.take 6).length = 6 := h6
  rw [List.length_take] at h
  omega

/-- Source `LoaderUtilities.load_binary(file)`, modelled as the sequence of
`(address, data)` arguments passed to `BoardCommands.write_memory` and
the final `total`; `.error` models the `ValueError` raised when the file
does not start with the marker byte `0x5A`. -/
def load_binary (file : List Nat) : Except String (List (Nat × List Nat) × Nat) :=
  match file with
  | [] => .error "The file is not in WDC format!"
  | b :: rest =>
    if b ≠ 0x5A then .error "The file is not in WDC format!"
    else .ok (load_binary_loop rest)

/-! ## Claim-side comparison definitions

These definitions follow the words of the specification, not the source;
each is compared against the corresponding source-derived definition in a
theorem below. -/

/-- The board classification exactly as the specification words it:
`W65C02SXB` when byte 3 = `0x00` and byte 4 = `0x58`; `W65C816SXB` when
byte 3 = `0x01` and byte 4 = `0x58`; `MENSCH_RevA/RevB/RevC` (selected by
`byte3 − 0x41`) when byte 3 ∈ {`0x41`,`0x42`,`0x43`} and bytes 0,1,2 =
`0x4D,0x59,0x4D`; `Unknown` in every other case. -/
def detect_board_claim (info : List Nat) : Board_Type :=
  if info.getD 3 0 = 0x00 ∧ info.getD 4 0 = 0x58 then .W65C02SXB
  else if info.getD 3 0 = 0x01 ∧ info.getD 4 0 = 0x58 then .W65C816SXB
  else if (info.getD 3 0 = 0x41 ∨ info.getD 3 0 = 0x42 ∨ info.getD 3 0 = 0x43)
      ∧ info.getD 0 0 = 0x4D ∧ info.getD 1 0 = 0x59 ∧ info.getD 2 0 = 0x4D then
    if info.getD 3 0 = 0x41 then .MyMENSCH_RevA
    else if info.getD 3 0 = 0x42 then .MyMENSCH_RevB
    else .MyMENSCH_RevC
  else .UNKNOWN

/-- The chunking the specification describes for the SREC encoder: split
`data` into chunks of at most 32 bytes, pairing each chunk with its start
address; the start address advances by the chunk length between
consecutive chunks. -/
def srecChunksSpec (address : Nat) (data : List Nat) : List (Nat × List Nat) :=
  if h : data = [] then []
  else (address, data.take 32)
    :: srecChunksSpec (address + (data.take 32).length) (data.drop 32)
termination_by data.length
decreasing_by
  simp only [List.length_drop]
  have : 0 < data.length := List.length_pos.mpr h
  omega

/-- One SREC line exactly as the specification words it: `S2`, the
byte-count field `chunk length + 4` as 2 hex digits, the 6-hex-digit
start address, the chunk bytes as hex pairs, and the trailing checksum
`0xFF − ((byte_count + addr_byte0 + addr_byte1 + addr_byte2 +
Σ chunk bytes) mod 256)` as 2 hex digits. -/
def srecLineSpec (address : Nat) (chunk : List Nat) : List Char :=
  ['S', '2'] ++ toHexPad 2 (chunk.length + 4) ++ toHexPad 6 address
    ++ (chunk.map (toHexPad 2)).flatten
    ++ toHexPad 2 (0xFF - ((chunk.length + 4 + address % 256
        + address / 256 % 256 + address / 65536 % 256 + chunk.sum) % 256))

/-- The record stream `(aᵢ, dᵢ)` is contiguous starting at `a`: the first
record's address is `a` and each record's address is the previous
record's address plus its payload length. -/
def contiguousFrom : Nat → List (Nat × List Nat) → Prop
  | _, [] => True
  | a, r :: rest => r.1 = a ∧ contiguousFrom (a + r.2.length) rest

/-! ## Helper lemmas: the serial commands in closed form -/

theorem send_command_eq_ok (s : SerState) (cmd : Command_Code) (rest : List Nat)
    (hrx : s.rx = 0xCC :: rest) :
    send_command s cmd = .ok ⟨rest, s.tx ++ [0x55, 0xAA, cmd.value]⟩ := by
  simp [send_command, SerState.write, SerState.read, hrx]

theorem send_command_eq_error (s : SerState) (cmd : Command_Code)
    (h : s.rx.head? ≠ some 0xCC) :
    send_command s cmd = .error "No response from SXB --- Try to reset the board." := by
  rcases hrx : s.rx with _ | ⟨b, rest⟩ <;>
    simp [send_command, SerState.write, SerState.read, hrx] at h ⊢
  omega

theorem read_memory_eq_ok (s : SerState) (address size : Nat) (rest : List Nat)
    (hrx : s.rx = 0xCC :: rest) :
    read_memory s address size =
      .ok (rest.take (size % 0x10000),
        ⟨rest.drop (size % 0x10000),
         s.tx ++ [0x55, 0xAA, 0x03] ++ toLE 3 (address % 0x1000000)
           ++ toLE 2 (size % 0x10000)⟩) := by
  simp [read_memory, send_command_eq_ok s _ rest hrx, SerState.write, SerState.read,
    Bind.bind, Except.bind, Command_Code.value, List.append_assoc]

theorem write_memory_eq_ok (s : SerState) (address : Nat) (data : List Nat)
    (rest : List Nat) (hrx : s.rx = 0xCC :: rest) :
    write_memory s address data =
      .ok ⟨rest,
        s.tx ++ [0x55, 0xAA, 0x02] ++ toLE 3 (address % 0x1000000)
          ++ toLE 2 (data.length % 0x10000) ++ data.take (data.length % 0x10000)⟩ := by
  have hlen : (data.take (data.length % 0x10000)).length = data.length % 0x10000 := by
    simp [List.length_take]
    omega
  simp [write_memory, send_command_eq_ok s _ rest hrx, SerState.write, SerState.read,
    hlen, Bind.bind, Except.bind, Command_Code.value, List.append_assoc]

/-- C3: for every command, `send_command` writes the sync bytes
`0x55 0xAA` and reads one acknowledgement byte; it fails with the
no-response protocol error if and only if no byte arrives or the byte is
not `0xCC`; otherwise it writes exactly the single command-code byte and
returns successfully. -/
theorem send_command_handshake (s : SerState) (cmd : Command_Code) :
    ((∃ e, send_command s cmd = .error e) ↔ s.rx.head? ≠ some 0xCC)
    ∧ (s.rx.head? = some 0xCC →
        send_command s cmd = .ok ⟨s.rx.tail, s.tx ++ [0x55, 0xAA, cmd.value]⟩) := by
  constructor
  · constructor
    · rintro ⟨e, he⟩ hhead
      rcases hrx : s.rx with _ | ⟨b, rest⟩
      · simp [hrx] at hhead
      · rw [hrx] at hhead
        simp at hhead
        rw [send_command_eq_ok s cmd rest (by rw [hrx, hhead])] at he
        exact Except.noConfusion he
    · intro hhead
      exact ⟨_, send_command_eq_error s cmd hhead⟩
  · intro hhead
    rcases hrx : s.rx with _ | ⟨b, rest⟩
    · simp [hrx] at hhead
    · rw [hrx] at hhead
      simp at hhead
      rw [send_command_eq_ok s cmd rest (by rw [hrx, hhead])]
      rfl

/-- Witness for C3: a concrete successful handshake. -/
theorem send_command_handshake_witness :
    send_command ⟨[0xCC], [7]⟩ .GET_INFO = .ok ⟨[], [7, 0x55, 0xAA, 0x04]⟩ :=
  (send_command_handshake ⟨[0xCC], [7]⟩ .GET_INFO).2 rfl

/-- C2: `detect_board` raises a length error if and only if its input is
not exactly 29 bytes; on every 29-byte input it returns without raising,
and the result is exactly the classification the claim describes
(`detect_board_claim`). -/
theorem detect_board_spec (info : List Nat) :
    ((∃ e, detect_board info = .error e) ↔ info.length ≠ 29)
    ∧ (info.length = 29 → detect_board info = .ok (detect_board_claim info)) := by
  by_cases hl : info.length = 29
  · have hok : detect_board info = .ok (detect_board_claim info) := by
      unfold detect_board detect_board_claim
      rw [if_neg (by omega)]
      generalize info.getD 0 0 = b0
      generalize info.getD 1 0 = b1
      generalize info.getD 2 0 = b2
      generalize info.getD 3 0 = b3
      generalize info.getD 4 0 = b4
      by_cases h3a : b3 = 0x00
      · subst h3a
        by_cases h4 : b4 = 0x58 <;> simp [h4]
      · by_cases h3b : b3 = 0x01
        · subst h3b
          by_cases h4 : b4 = 0x58 <;> simp [h4]
        · by_cases h3c : b3 = 0x41 ∨ b3 = 0x42 ∨ b3 = 0x43
          · by_cases hm : b0 = 0x4D ∧ b1 = 0x59 ∧ b2 = 0x4D
            · obtain ⟨hm0, hm1, hm2⟩ := hm
              subst hm0
              subst hm1
              subst hm2
              rcases h3c with h3 | h3 | h3 <;> subst h3 <;>
                simp [Board_Type.ofValue, Board_Type.value]
            · rcases h3c with h3 | h3 | h3 <;> subst h3 <;> simp [hm]
          · simp [h3a, h3b, h3c]
    refine ⟨⟨fun ⟨e, he⟩ => ?_, fun h => absurd hl h⟩, fun _ => hok⟩
    rw [hok] at he
    exact Except.noConfusion he
  · constructor
    · constructor
      · intro _
        exact hl
      · intro _
        refine ⟨"The info data block should be exactly 29 bytes!", ?_⟩
        unfold detect_board
        simp [hl]
    · intro h
      exact absurd h hl

/-- Witness for C2: the W65C02SXB info block from the specification. -/
theorem detect_board_spec_witness :
    detect_board ([0x00, 0x7E, 0x00, 0x00, 0x58] ++ List.replicate 24 0)
      = .ok (detect_board_claim ([0x00, 0x7E, 0x00, 0x00, 0x58] ++ List.replicate 24 0)) :=
  (detect_board_spec ([0x00, 0x7E, 0x00, 0x00, 0x58] ++ List.replicate 24 0)).2 (by decide)

/-- C4 counterexample: the claim says the payload is the first
`min(len(data), 65535)` bytes of `data`.  At `len(data) = 65536` the code
computes `data[:(65536 & 0xFFFF)] = data[:0]` and transmits an empty
payload with length field `0`, not the claimed 65535-byte payload. -/
theorem write_memory_truncation_cex :
    write_memory ⟨[0xCC], []⟩ 0 (List.replicate 65536 0) ≠
      .ok ⟨[], [0x55, 0xAA, 0x02] ++ toLE 3 0
        ++ toLE 2 (min (List.replicate 65536 (0 : Nat)).length 65535)
        ++ (List.replicate 65536 (0 : Nat)).take
            (min (List.replicate 65536 (0 : Nat)).length 65535)⟩ := by
  intro h
  rw [write_memory_eq_ok ⟨[0xCC], []⟩ 0 (List.replicate 65536 0) [] rfl] at h
  simp only [Except.ok.injEq, SerState.mk.injEq] at h
  have hlen := congrArg List.length h.2
  simp only [List.length_append, List.length_take, List.length_replicate, toLE,
    List.length_map, List.length_range, List.length_cons, List.length_nil] at hlen
  omega

/-- C4 (amended): for every address and data, `write_memory` transmits
`WRITE_MEM` followed by the masked address as 3 little-endian bytes, a
2-byte little-endian length field, and the payload, where the payload is
the first `len(data) mod 65536` bytes of `data` (Python
`data[:(len(data) & 0xFFFF)]`, a wrap, not a clamp to 65535) and the
length field equals the number of payload bytes actually transmitted. -/
theorem write_memory_truncation (s : SerState) (address : Nat) (data : List Nat)
    (h : s.rx.head? = some 0xCC) :
    write_memory s address data =
      .ok ⟨s.rx.tail, s.tx ++ [0x55, 0xAA, 0x02] ++ toLE 3 (address % 0x1000000)
        ++ toLE 2 ((data.take (data.length % 0x10000)).length)
        ++ data.take (data.length % 0x10000)⟩
    ∧ (data.take (data.length % 0x10000)).length = data.length % 0x10000 := by
  rcases hrx : s.rx with _ | ⟨b, rest⟩
  · rw [hrx] at h
    exact absurd h (by simp)
  · rw [hrx] at h
    simp at h
    subst h
    have hlen : (data.take (data.length % 0x10000)).length = data.length % 0x10000 := by
      simp [List.length_take]
      omega
    rw [write_memory_eq_ok s address data rest hrx, hlen]
    exact ⟨rfl, rfl⟩

/-- Witness for C4: a two-byte write at a wide address. -/
theorem write_memory_truncation_witness :
    write_memory ⟨[0xCC], []⟩ 0x12345678 [9, 8] =
      .ok ⟨[], [0x55, 0xAA, 0x02] ++ toLE 3 (0x12345678 % 0x1000000)
        ++ toLE 2 (([9, 8].take ([9, 8].length % 0x10000)).length)
        ++ [9, 8].take ([9, 8].length % 0x10000)⟩ :=
  (write_memory_truncation ⟨[0xCC], []⟩ 0x12345678 [9, 8] rfl).1

/-- C5 counterexample: with only the acknowledgement byte available on
the link, `read_memory(0, 4)` returns `Except.ok` with an *empty* data
list — the partial (here: zero-byte) read — instead of failing with a
short-read error as the claim states. -/
theorem read_memory_short_read_cex :
    read_memory ⟨[0xCC], []⟩ 0 4 =
      .ok ([], ⟨[], [0x55, 0xAA, 0x03, 0, 0, 0, 4, 0]⟩) := by
  rw [read_memory_eq_ok ⟨[0xCC], []⟩ 0 4 [] rfl]
  rfl

/-- C5 (amended): after sending `READ_MEM` with the masked 3-byte LE
address and 2-byte LE size, `read_memory` returns, without error, up to
the masked size bytes — whatever the link yields before the timeout; a
short read produces the partial data, not a failure. -/
theorem read_memory_short_read (s : SerState) (address size : Nat)
    (h : s.rx.head? = some 0xCC) :
    read_memory s address size =
      .ok (s.rx.tail.take (size % 0x10000),
        ⟨s.rx.tail.drop (size % 0x10000),
         s.tx ++ [0x55, 0xAA, 0x03] ++ toLE 3 (address % 0x1000000)
           ++ toLE 2 (size % 0x10000)⟩) := by
  rcases hrx : s.rx with _ | ⟨b, rest⟩
  · rw [hrx] at h
    exact absurd h (by simp)
  · rw [hrx] at h
    simp at h
    subst h
    rw [read_memory_eq_ok s address size rest hrx]
    rfl

/-- Witness for C5: three bytes requested, one available — the single
byte is returned without error. -/
theorem read_memory_short_read_witness :
    read_memory ⟨[0xCC, 9], []⟩ 2 3 =
      .ok ([0xCC, 9].tail.take (3 % 0x10000),
        ⟨[0xCC, 9].tail.drop (3 % 0x10000),
         [] ++ [0x55, 0xAA, 0x03] ++ toLE 3 (2 % 0x1000000) ++ toLE 2 (3 % 0x10000)⟩) :=
  read_memory_short_read ⟨[0xCC, 9], []⟩ 2 3 rfl

theorem execute_memory_sxb_eq (s : SerState) (address : Nat) (rest : List Nat)
    (hrx : s.rx = 0xCC :: 0xCC :: rest) (b : Board_Type)
    (hb : b = .W65C02SXB ∨ b = .W65C816SXB) :
    execute_memory s address b =
      .ok ⟨rest, s.tx ++ [0x55, 0xAA, 0x02] ++ toLE 3 0x7E00 ++ toLE 2 16
        ++ sxbStateBlock (address % 0x10000) ++ [0x55, 0xAA, 0x05]⟩ := by
  have hw := write_memory_eq_ok s STATE_ADDRESS (sxbStateBlock (address % 0x10000))
      (0xCC :: rest) hrx
  have hm : STATE_ADDRESS % 0x1000000 = 0x7E00 := by norm_num [STATE_ADDRESS]
  rw [hm] at hw
  have hblock : (sxbStateBlock (address % 0x10000)).length % 0x10000 = 16 := by
    simp [sxbStateBlock]
  rw [hblock] at hw
  have htake : (sxbStateBlock (address % 0x10000)).take 16 =
      sxbStateBlock (address % 0x10000) := by
    simp [sxbStateBlock]
  rw [htake] at hw
  have hs := send_command_eq_ok
      ⟨0xCC :: rest, s.tx ++ [0x55, 0xAA, 0x02] ++ toLE 3 0x7E00
        ++ toLE 2 16 ++ sxbStateBlock (address % 0x10000)⟩ .EXEC_DEBUG rest rfl
  rcases hb with hb | hb <;> subst hb <;>
    (simp only [execute_memory]
     rw [hw]
     simp only [Bind.bind, Except.bind]
     rw [hs]
     simp [Command_Code.value, List.append_assoc])

theorem execute_memory_mensch_eq (s : SerState) (address : Nat) (rest : List Nat)
    (hrx : s.rx = 0xCC :: rest) (b : Board_Type)
    (hb : b = .MyMENSCH_RevA ∨ b = .MyMENSCH_RevB ∨ b = .MyMENSCH_RevC) :
    execute_memory s address b =
      .ok ⟨rest, s.tx ++ [0x55, 0xAA, 0x06] ++ toLE 3 (address % 0x1000000)⟩ := by
  have hs := send_command_eq_ok s .EXEC_MEM rest hrx
  rcases hb with hb | hb | hb <;> subst hb <;>
    simp [execute_memory, Bind.bind, Except.bind, hs, SerState.write,
      Command_Code.value, List.append_assoc]

/-- C6: `execute_memory` on an SXB board masks the address to 16 bits,
writes the 16-byte zero-filled state block (bytes 6–7 the address LE,
bytes 10–11 `0xFF 0x01`, bytes 12–13 `0x34 0x01`) to `0x7E00` via
`write_memory`, then sends `EXEC_DEBUG`; on a MENSCH board it masks the
address to 24 bits, sends `EXEC_MEM` and writes the 3 LE address bytes;
on `UNKNOWN` it always fails, for every address. -/
theorem execute_memory_dispatch (s : SerState) (address : Nat) :
    (s.rx.take 2 = [0xCC, 0xCC] →
      execute_memory s address .W65C02SXB =
        .ok ⟨s.rx.drop 2, s.tx ++ [0x55, 0xAA, 0x02] ++ toLE 3 0x7E00 ++ toLE 2 16
          ++ sxbStateBlock (address % 0x10000) ++ [0x55, 0xAA, 0x05]⟩
      ∧ execute_memory s address .W65C816SXB =
        .ok ⟨s.rx.drop 2, s.tx ++ [0x55, 0xAA, 0x02] ++ toLE 3 0x7E00 ++ toLE 2 16
          ++ sxbStateBlock (address % 0x10000) ++ [0x55, 0xAA, 0x05]⟩)
    ∧ sxbStateBlock (address % 0x10000) =
        [0, 0, 0, 0, 0, 0, address % 0x10000 % 256, address % 0x10000 / 256 % 256,
         0, 0, 0xFF, 0x01, 0x34, 0x01, 0, 0]
    ∧ (s.rx.take 1 = [0xCC] →
        execute_memory s address .MyMENSCH_RevA =
          .ok ⟨s.rx.drop 1, s.tx ++ [0x55, 0xAA, 0x06] ++ toLE 3 (address % 0x1000000)⟩
        ∧ execute_memory s address .MyMENSCH_RevB =
          .ok ⟨s.rx.drop 1, s.tx ++ [0x55, 0xAA, 0x06] ++ toLE 3 (address % 0x1000000)⟩
        ∧ execute_memory s address .MyMENSCH_RevC =
          .ok ⟨s.rx.drop 1, s.tx ++ [0x55, 0xAA, 0x06] ++ toLE 3 (address % 0x1000000)⟩)
    ∧ execute_memory s address .UNKNOWN =
        .error "Cannot execute memory on an unknown board!" := by
  refine ⟨fun h2 => ?_, rfl, fun h1 => ?_, rfl⟩
  · have hrx : s.rx = 0xCC :: 0xCC :: s.rx.drop 2 := by
      rcases hs : s.rx with _ | ⟨a, _ | ⟨b, rest⟩⟩ <;> rw [hs] at h2 <;> simp at h2 <;>
        simp [h2]
    exact ⟨execute_memory_sxb_eq s address _ hrx _ (Or.inl rfl),
      execute_memory_sxb_eq s address _ hrx _ (Or.inr rfl)⟩
  · have hrx : s.rx = 0xCC :: s.rx.drop 1 := by
      rcases hs : s.rx with _ | ⟨a, rest⟩ <;> rw [hs] at h1 <;> simp at h1 <;> simp [h1]
    exact ⟨execute_memory_mensch_eq s address _ hrx _ (Or.inl rfl),
      execute_memory_mensch_eq s address _ hrx _ (Or.inr (Or.inl rfl)),
      execute_memory_mensch_eq s address _ hrx _ (Or.inr (Or.inr rfl))⟩

/-- Witness for C6: a concrete SXB execute at `0x1234`. -/
theorem execute_memory_dispatch_witness :
    execute_memory ⟨[0xCC, 0xCC], []⟩ 0x1234 .W65C02SXB =
      .ok ⟨[], [] ++ [0x55, 0xAA, 0x02] ++ toLE 3 0x7E00 ++ toLE 2 16
        ++ sxbStateBlock (0x1234 % 0x10000) ++ [0x55, 0xAA, 0x05]⟩ :=
  ((execute_memory_dispatch ⟨[0xCC, 0xCC], []⟩ 0x1234).1 rfl).1

/-- C9: every address transmitted on the wire by `read_memory`,
`write_memory` or `execute_memory` is the 24-bit-masked value (hence at
most `0xFFFFFF`) and every size/length field is the 16-bit-masked value
(hence at most `0xFFFF`); in particular `read_memory(0x01FFFFFF, 0x1FFFF)`
transmits address `0xFFFFFF` and size `0xFFFF`. -/
theorem wire_value_widths (s : SerState) (address size : Nat) (data : List Nat)
    (h : s.rx.head? = some 0xCC) :
    (address % 0x1000000 ≤ 0xFFFFFF ∧ size % 0x10000 ≤ 0xFFFF
      ∧ data.length % 0x10000 ≤ 0xFFFF)
    ∧ read_memory s address size =
        .ok (s.rx.tail.take (size % 0x10000),
          ⟨s.rx.tail.drop (size % 0x10000),
           s.tx ++ [0x55, 0xAA, 0x03] ++ toLE 3 (address % 0x1000000)
             ++ toLE 2 (size % 0x10000)⟩)
    ∧ write_memory s address data =
        .ok ⟨s.rx.tail,
          s.tx ++ [0x55, 0xAA, 0x02] ++ toLE 3 (address % 0x1000000)
            ++ toLE 2 (data.length % 0x10000) ++ data.take (data.length % 0x10000)⟩
    ∧ execute_memory s address .MyMENSCH_RevA =
        .ok ⟨s.rx.tail, s.tx ++ [0x55, 0xAA, 0x06] ++ toLE 3 (address % 0x1000000)⟩
    ∧ read_memory s 0x01FFFFFF 0x1FFFF =
        .ok (s.rx.tail.take 0xFFFF,
          ⟨s.rx.tail.drop 0xFFFF,
           s.tx ++ [0x55, 0xAA, 0x03] ++ toLE 3 0xFFFFFF ++ toLE 2 0xFFFF⟩) := by
  rcases hrx : s.rx with _ | ⟨b, rest⟩
  · rw [hrx] at h
    exact absurd h (by simp)
  · rw [hrx] at h
    simp at h
    subst h
    refine ⟨⟨by omega, by omega, by omega⟩, ?_, ?_, ?_, ?_⟩
    · rw [read_memory_eq_ok s address size rest hrx]
      rfl
    · rw [write_memory_eq_ok s address data rest hrx]
      rfl
    · rw [execute_memory_mensch_eq s address rest hrx _ (Or.inl rfl)]
      rfl
    · rw [read_memory_eq_ok s 0x01FFFFFF 0x1FFFF rest hrx]
      norm_num

/-- Witness for C9: the claim's concrete vector on a one-byte link. -/
theorem wire_value_widths_witness :
    read_memory ⟨[0xCC], []⟩ 0x01FFFFFF 0x1FFFF =
      .ok (([0xCC] : List Nat).tail.take 0xFFFF,
        ⟨([0xCC] : List Nat).tail.drop 0xFFFF,
         [] ++ [0x55, 0xAA, 0x03] ++ toLE 3 0xFFFFFF ++ toLE 2 0xFFFF⟩) :=
  (wire_value_widths ⟨[0xCC], []⟩ 0x01FFFFFF 0x1FFFF [] rfl).2.2.2.2

/-- C10: a WDC binary record whose 6-byte header declares size 0 stops
`load_binary` at that record: nothing is emitted for it, nothing after it
is processed (whatever bytes follow, well-formed or not), and the byte
total excludes it and everything after it.  The second conjunct shows a
preceding well-formed record is still emitted and counted. -/
theorem load_binary_zero_size_stops (a1 a2 a3 d : Nat) (rest : List Nat) :
    load_binary_loop (a1 :: a2 :: a3 :: 0 :: 0 :: 0 :: rest) = ([], 0)
    ∧ load_binary (0x5A :: 0 :: 0 :: 0 :: 1 :: 0 :: 0 :: d
        :: a1 :: a2 :: a3 :: 0 :: 0 :: 0 :: rest) = .ok ([(0, [d])], 1) := by
  have h1 : load_binary_loop (a1 :: a2 :: a3 :: 0 :: 0 :: 0 :: rest) = ([], 0) := by
    rw [load_binary_loop]
    simp
  refine ⟨h1, ?_⟩
  rw [load_binary]
  rw [load_binary_loop]
  simp [h1]

/-- C8 counterexample: at `data = []` the encoder writes a size-0 record,
which the decoder's `if not data` break discards — the decode of
`save_binary(0, [])` yields *zero* records, not the one record `(0, [])`
the claim requires. -/
theorem binary_roundtrip_cex :
    load_binary (save_binary 0 []) ≠ .ok ([(0, [])], 0) := by
  have hs : save_binary 0 [] = 0x5A :: [0, 0, 0, 0, 0, 0] := rfl
  have h : load_binary (save_binary 0 []) = .ok ([], 0) := by
    rw [hs, load_binary, if_neg (by simp), load_binary_loop]
    simp
  rw [h]
  simp

/-- C8 (amended): for every address and every non-empty `data` with
`len(data) ≤ 0xFFFFFF`, decoding the file produced by
`save_binary(address, data)` yields exactly one emitted record, equal to
`(address mod 2^24, data)` (the encoder stores only the low 24 bits of
the address), with the reported total `len(data)`. -/
theorem binary_roundtrip (address : Nat) (data : List Nat)
    (hne : data ≠ []) (hlen : data.length ≤ 0xFFFFFF) :
    load_binary (save_binary address data) =
      .ok ([(address % 0x1000000, data)], data.length) := by
  have hs : save_binary address data = 0x5A :: (address % 256 :: address / 256 % 256
      :: address / 65536 % 256 :: data.length % 256 :: data.length / 256 % 256
      :: data.length / 65536 % 256 :: data) := by
    simp [save_binary]
  have hsz : data.length % 256 + data.length / 256 % 256 * 256
      + data.length / 65536 % 256 * 65536 = data.length := by omega
  have haddr : address % 256 + address / 256 % 256 * 256
      + address / 65536 % 256 * 65536 = address % 0x1000000 := by omega
  rw [hs, load_binary, if_neg (by simp), load_binary_loop]
  simp only [List.take_succ_cons, List.take_zero, List.length_cons, List.length_nil,
    List.getD_cons_zero, List.getD_cons_succ, List.drop_succ_cons, List.drop_zero,
    hsz, haddr]
  rw [dif_neg (by simp), List.take_length, if_neg (by simp [hne])]
  rw [List.drop_eq_nil_of_le (by simp; omega), load_binary_loop]
  simp

/-- Witness for C8: the specification's concrete vector
`[0x5A, 00 10 00, 02 00 00, AA BB]`. -/
theorem binary_roundtrip_witness :
    load_binary (save_binary 0x1000 [0xAA, 0xBB]) =
      .ok ([(0x1000 % 0x1000000, [0xAA, 0xBB])], [0xAA, 0xBB].length) :=
  binary_roundtrip 0x1000 [0xAA, 0xBB] (by decide) (by decide)

/-! ## Hexadecimal formatting / parsing round-trip lemmas -/

theorem hexDigitVal_hexDigitChar : ∀ v : Nat, v < 16 →
    hexDigitVal (hexDigitChar v) = some v := by
  decide

theorem parseHexLoop_append (xs ys : List Char) (acc : Nat) :
    parseHexLoop acc (xs ++ ys) =
      (parseHexLoop acc xs).bind (fun a => parseHexLoop a ys) := by
  induction xs generalizing acc with
  | nil => rfl
  | cons c cs ih =>
    simp only [List.cons_append, parseHexLoop]
    cases hexDigitVal c with
    | none => rfl
    | some v => exact ih _

theorem parseHexLoop_natToHexRev (n : Nat) : ∀ acc,
    parseHexLoop acc (natToHexRev n).reverse =
      some (acc * 16 ^ (natToHexRev n).length + n) := by
  induction n using Nat.strong_induction_on with
  | _ n ih =>
    intro acc
    by_cases h0 : n = 0
    · subst h0
      rw [natToHexRev]
      simp [parseHexLoop]
    · rw [natToHexRev, dif_neg h0]
      simp only [List.reverse_cons, List.length_cons]
      rw [parseHexLoop_append, ih (n / 16) (Nat.div_lt_self (Nat.pos_of_ne_zero h0)
        (by omega)) acc]
      simp only [Option.some_bind, parseHexLoop,
        hexDigitVal_hexDigitChar (n % 16) (Nat.mod_lt n (by omega))]
      have : (acc * 16 ^ (natToHexRev (n / 16)).length + n / 16) * 16 + n % 16 =
          acc * 16 ^ ((natToHexRev (n / 16)).length + 1) + n := by
        rw [pow_succ]
        have := Nat.div_add_mod n 16
        ring_nf
        omega
      rw [this]

theorem parseHexLoop_replicate_zero (m : Nat) : ∀ acc,
    parseHexLoop acc (List.replicate m '0') = some (acc * 16 ^ m) := by
  induction m with
  | zero => simp [parseHexLoop]
  | succ m ih =>
    intro acc
    rw [List.replicate_succ]
    simp only [parseHexLoop]
    rw [show hexDigitVal '0' = some 0 from by decide]
    simp only []
    rw [ih (acc * 16 + 0)]
    have : (acc * 16 + 0) * 16 ^ m = acc * 16 ^ (m + 1) := by ring
    rw [this]

theorem parseHex_toHexPad (w n : Nat) : parseHex (toHexPad w n) = some n := by
  simp only [toHexPad]
  by_cases h0 : n = 0
  · subst h0
    rw [parseHex, if_neg (by simp)]
    rw [parseHexLoop_append, parseHexLoop_replicate_zero]
    simp [parseHexLoop, show hexDigitVal '0' = some 0 from by decide]
  · rw [if_neg h0, parseHex, if_neg (by
      have hne : natToHexRev n ≠ [] := by
        rw [natToHexRev, dif_neg h0]
        simp
      intro hcontra
      rcases List.append_eq_nil.mp hcontra with ⟨_, h2⟩
      exact hne (by simpa using h2))]
    rw [parseHexLoop_append, parseHexLoop_replicate_zero]
    simp only [Option.some_bind]
    rw [parseHexLoop_natToHexRev]
    simp

theorem natToHexRev_length_le (w : Nat) : ∀ n, n < 16 ^ w →
    (natToHexRev n).length ≤ w := by
  induction w with
  | zero =>
    intro n hn
    have : n = 0 := by omega
    subst this
    rw [natToHexRev]
    simp
  | succ w ih =>
    intro n hn
    by_cases h0 : n = 0
    · subst h0
      rw [natToHexRev]
      simp
    · rw [natToHexRev, dif_neg h0]
      simp only [List.length_cons]
      have hlt : n / 16 < 16 ^ w := by
        rw [pow_succ] at hn
        omega
      have := ih (n / 16) hlt
      omega

theorem toHexPad_length (w n : Nat) (hw : 1 ≤ w) (hn : n < 16 ^ w) :
    (toHexPad w n).length = w := by
  rw [toHexPad]
  simp only [List.length_append, List.length_replicate]
  by_cases h0 : n = 0
  · subst h0
    simp
    omega
  · rw [if_neg h0]
    simp only [List.length_reverse]
    have := natToHexRev_length_le w n hn
    omega

theorem toHexPad_two_of_lt (b : Nat) (hb : b < 256) :
    toHexPad 2 b = [hexDigitChar (b / 16), hexDigitChar (b % 16)] := by
  by_cases h0 : b = 0
  · subst h0
    decide
  · simp only [toHexPad, if_neg h0]
    rw [natToHexRev, dif_neg h0]
    by_cases h16 : b / 16 = 0
    · rw [natToHexRev, dif_pos h16, h16]
      have : b % 16 = b := by omega
      rw [this]
      rfl
    · rw [natToHexRev, dif_neg h16]
      have hdd : b / 16 / 16 = 0 := by omega
      have hm : b / 16 % 16 = b / 16 := by omega
      rw [hdd, hm, natToHexRev]
      rfl

theorem fromhex_flatten : ∀ bs : List Nat, (∀ b ∈ bs, b < 256) →
    fromhex ((bs.map (toHexPad 2)).flatten) = some bs := by
  intro bs
  induction bs with
  | nil => intro _; rfl
  | cons b rest ih =>
    intro hb
    have hblt : b < 256 := hb b (by simp)
    rw [List.map_cons, List.flatten_cons, toHexPad_two_of_lt b hblt]
    simp only [List.cons_append, List.nil_append]
    rw [fromhex]
    rw [hexDigitVal_hexDigitChar (b / 16) (by omega),
      hexDigitVal_hexDigitChar (b % 16) (by omega)]
    simp only [Bind.bind, Option.bind]
    rw [ih (fun x hx => hb x (by simp [hx]))]
    have : b / 16 * 16 + b % 16 = b := by omega
    simp [this]

/-- C7: `save_records` emits exactly one line per chunk of at most 32
bytes; each line's byte-count field is `chunk length + 4`, its trailing
checksum is `0xFF − ((byte_count + addr_byte0 + addr_byte1 + addr_byte2 +
Σ chunk bytes) mod 256)` (`srecLineSpec`, the specification's single-mod
formula, against the code's iterated `& 0xFF` accumulation), and the
start address advances by the chunk length between consecutive lines
(`srecChunksSpec`). -/
theorem save_records_line_spec (address : Nat) (data : List Nat) :
    save_records address data =
      (srecChunksSpec address data).map (fun p => srecLineSpec p.1 p.2) := by
  generalize hfuel : data.length = fuel
  induction fuel using Nat.strong_induction_on generalizing address data with
  | _ fuel ih =>
    rw [save_records, srecChunksSpec]
    by_cases hnil : data = []
    · simp [hnil]
    · rw [dif_neg hnil, dif_neg hnil]
      simp only [List.map_cons]
      have hcount : (if data.length > 32 then 32 else data.length) =
          (data.take 32).length := by
        simp only [List.length_take]
        by_cases h32 : data.length > 32
        · rw [if_pos h32]
          omega
        · rw [if_neg h32]
          omega
      have htake : data.take (if data.length > 32 then 32 else data.length) =
          data.take 32 := by
        by_cases h32 : data.length > 32
        · rw [if_pos h32]
        · rw [if_neg h32]
          rw [List.take_length, List.take_of_length_le (by omega)]
      have hdrop : data.drop (if data.length > 32 then 32 else data.length) =
          data.drop 32 := by
        by_cases h32 : data.length > 32
        · rw [if_pos h32]
        · rw [if_neg h32, List.drop_length, List.drop_eq_nil_of_le (by omega)]
      have hchk : ∀ c a s : Nat,
          0xFF - ((((c + 4 + a) % 256 + a / 256) % 256 + a / 65536) % 256 + s) % 256 =
          0xFF - ((c + 4 + a % 256 + a / 256 % 256 + a / 65536 % 256 + s) % 256) := by
        intro c a s
        omega
      rw [htake, hdrop, hcount, hchk]
      refine congrArg₂ List.cons ?_ ?_
      · rw [srecLineSpec]
      · have hlt : (data.drop 32).length < fuel := by
          rw [← hfuel]
          simp only [List.length_drop]
          have : 0 < data.length := List.length_pos.mpr hnil
          omega
        exact ih (data.drop 32).length hlt _ _ rfl

theorem flatten_pad2_length (chunk : List Nat) (hb : ∀ b ∈ chunk, b < 256) :
    ((chunk.map (toHexPad 2)).flatten).length = 2 * chunk.length := by
  induction chunk with
  | nil => rfl
  | cons b rest ih =>
    rw [List.map_cons, List.flatten_cons, List.length_append,
      toHexPad_two_of_lt b (hb b (by simp)), ih (fun x hx => hb x (by simp [hx]))]
    simp only [List.length_cons, List.length_nil]
    omega

/-- Decoding one well-formed `S2` line produced by the encoder: the
byte-count field parses back to `cnt + 4`, the 6-digit address to `a`,
and the `2·cnt` payload digits to `chunk`; the record is prepended and
`cnt` added to the running total. -/
theorem load_records_srec_line (a cnt : Nat) (chunk : List Nat)
    (lines : List (List Char)) (hcnt : chunk.length = cnt)
    (h32 : cnt ≤ 32) (ha : a < 16 ^ 6) (hb : ∀ b ∈ chunk, b < 256) (chk : Nat) :
    load_records ((['S', '2'] ++ toHexPad 2 (cnt + 4) ++ toHexPad 6 a
        ++ (chunk.map (toHexPad 2)).flatten ++ toHexPad 2 chk) :: lines) =
      (load_records lines).bind (fun p => some ((a, chunk) :: p.1, cnt + p.2)) := by
  simp only [List.append_assoc]
  have hlen2 : (toHexPad 2 (cnt + 4)).length = 2 :=
    toHexPad_length 2 (cnt + 4) (by omega) (by norm_num; omega)
  have hlen6 : (toHexPad 6 a).length = 6 := toHexPad_length 6 a (by omega) ha
  have hlenfl : ((chunk.map (toHexPad 2)).flatten).length = 2 * cnt := by
    rw [flatten_pad2_length chunk hb, hcnt]
  simp only [List.cons_append, List.nil_append]
  have hs1 : pySlice ('S' :: '2' :: (toHexPad 2 (cnt + 4) ++ (toHexPad 6 a
      ++ ((chunk.map (toHexPad 2)).flatten ++ toHexPad 2 chk)))) 2 4 =
      toHexPad 2 (cnt + 4) := by
    show ((toHexPad 2 (cnt + 4) ++ (toHexPad 6 a
      ++ ((chunk.map (toHexPad 2)).flatten ++ toHexPad 2 chk)))).take 2 =
      toHexPad 2 (cnt + 4)
    exact List.take_left' hlen2
  have hs2 : pySlice ('S' :: '2' :: (toHexPad 2 (cnt + 4) ++ (toHexPad 6 a
      ++ ((chunk.map (toHexPad 2)).flatten ++ toHexPad 2 chk)))) 4 10 =
      toHexPad 6 a := by
    show (((toHexPad 2 (cnt + 4) ++ (toHexPad 6 a
      ++ ((chunk.map (toHexPad 2)).flatten ++ toHexPad 2 chk)))).drop 2).take 6 =
      toHexPad 6 a
    rw [List.drop_left' hlen2]
    exact List.take_left' hlen6
  have hs3 : pySlice ('S' :: '2' :: (toHexPad 2 (cnt + 4) ++ (toHexPad 6 a
      ++ ((chunk.map (toHexPad 2)).flatten ++ toHexPad 2 chk)))) 10 (cnt * 2 + 10) =
      (chunk.map (toHexPad 2)).flatten := by
    show (((toHexPad 2 (cnt + 4) ++ (toHexPad 6 a
      ++ ((chunk.map (toHexPad 2)).flatten ++ toHexPad 2 chk)))).drop 8).take
        (cnt * 2 + 10 - 10) = (chunk.map (toHexPad 2)).flatten
    rw [Nat.add_sub_cancel]
    rw [show (8 : Nat) = 2 + 6 from rfl, ← List.drop_drop, List.drop_left' hlen2,
      List.drop_left' hlen6]
    rw [show cnt * 2 = 2 * cnt from by omega]
    exact List.take_left' hlenfl
  rw [load_records, hs1, hs2, parseHex_toHexPad, parseHex_toHexPad]
  simp only [Bind.bind, Option.bind, Nat.add_sub_cancel]
  rw [hs3, fromhex_flatten chunk hb]
  simp only [Bind.bind, Option.bind]
  rfl

/-- C1 (amended): for every `address` and byte string `data` with
`len(data) ≤ 4096` and `address + len(data) ≤ 0x1000000` (so that every
line's start address still fits in the 6 hex digits the encoder emits),
decoding the output of `save_records(address, data)` produces a sequence
of `write_memory` calls whose concatenated payloads, in file order, equal
`data`, and whose addresses are contiguous starting at `address`; the
reported total is `len(data)`. -/
theorem srec_roundtrip (address : Nat) (data : List Nat)
    (hb : ∀ b ∈ data, b < 256) (hlen : data.length ≤ 4096)
    (haddr : address + data.length ≤ 0x1000000) :
    ∃ recs, load_records (save_records address data) = some (recs, data.length)
      ∧ (recs.map Prod.snd).flatten = data
      ∧ contiguousFrom address recs := by
  generalize hfuel : data.length = fuel
  induction fuel using Nat.strong_induction_on generalizing address data with
  | _ fuel ih =>
    by_cases hnil : data = []
    · subst hnil
      simp only [List.length_nil] at hfuel
      subst hfuel
      refine ⟨[], ?_, rfl, trivial⟩
      rw [save_records]
      simp [load_records]
    · have hlen1 : 0 < data.length := List.length_pos.mpr hnil
      have hc1 : 1 ≤ (if data.length > 32 then 32 else data.length) := by
        split <;> omega
      have hc32 : (if data.length > 32 then 32 else data.length) ≤ 32 := by
        split <;> omega
      have hcle : (if data.length > 32 then 32 else data.length) ≤ data.length := by
        split <;> omega
      have hcnt : (data.take (if data.length > 32 then 32 else data.length)).length
          = (if data.length > 32 then 32 else data.length) := by
        simp only [List.length_take]
        omega
      have ha6 : address < 16 ^ 6 := by
        have : (16 : Nat) ^ 6 = 0x1000000 := by norm_num
        omega
      have hbtake : ∀ b ∈ data.take (if data.length > 32 then 32 else data.length),
          b < 256 := fun b hm => hb b (List.mem_of_mem_take hm)
      obtain ⟨recs', hload', hcat', hcontig'⟩ :=
        ih (data.drop (if data.length > 32 then 32 else data.length)).length
          (by simp only [List.length_drop]; omega)
          (address + (if data.length > 32 then 32 else data.length))
          (data.drop (if data.length > 32 then 32 else data.length))
          (fun b hm => hb b (List.mem_of_mem_drop hm))
          (by simp only [List.length_drop]; omega)
          (by simp only [List.length_drop]; omega)
          rfl
      refine ⟨(address, data.take (if data.length > 32 then 32 else data.length))
        :: recs', ?_, ?_, ?_⟩
      · rw [save_records, dif_neg hnil]
        rw [load_records_srec_line address _ _ _ hcnt hc32 ha6 hbtake _, hload']
        simp only [Option.some_bind]
        refine congrArg some (Prod.ext rfl ?_)
        simp only [List.length_drop]
        omega
      · simp only [List.map_cons, List.flatten_cons, hcat']
        exact List.take_append_drop _ data
      · exact ⟨rfl, by rw [hcnt]; exact hcontig'⟩

/-- Witness for C1: a two-byte payload at address `0x10` decodes back to
one contiguous record totalling 2 bytes. -/
theorem srec_roundtrip_witness :
    ∃ recs, load_records (save_records 0x10 [1, 2]) = some (recs, [1, 2].length)
      ∧ (recs.map Prod.snd).flatten = [1, 2]
      ∧ contiguousFrom 0x10 recs :=
  srec_roundtrip 0x10 [1, 2] (by decide) (by decide) (by decide)

/-- C1 counterexample: at `address = 0xFFFFFF` with 33 data bytes — both
allowed by the claim's bounds `address ≤ 0xFFFFFF`, `len(data) ≤ 4096` —
the second line's start address `0x100001F` needs 7 hex digits, shifting
the fixed-position parse: the decoder reads address `0x100001` and
payload `[0xF0]`, so the concatenated payloads are not `data` and the
addresses are not contiguous. -/
theorem srec_roundtrip_cex :
    save_records 0xFFFFFF (List.replicate 33 0) =
      [['S', '2', '2', '4', 'f', 'f', 'f', 'f', 'f', 'f']
        ++ List.replicate 64 '0' ++ ['d', 'e'],
       ['S', '2', '0', '5', '1', '0', '0', '0', '0', '1', 'f', '0', '0', 'd', 'b']]
    ∧ load_records
        [['S', '2', '2', '4', 'f', 'f', 'f', 'f', 'f', 'f']
          ++ List.replicate 64 '0' ++ ['d', 'e'],
         ['S', '2', '0', '5', '1', '0', '0', '0', '0', '1', 'f', '0', '0', 'd', 'b']] =
        some ([(0xFFFFFF, List.replicate 32 0), (0x100001, [0xF0])], 33)
    ∧ ¬ (([(0xFFFFFF, List.replicate 32 0), (0x100001, [0xF0])].map Prod.snd).flatten
          = List.replicate 33 (0 : Nat))
    ∧ ¬ contiguousFrom 0xFFFFFF [(0xFFFFFF, List.replicate 32 0), (0x100001, [0xF0])] := by
  refine ⟨?_, by decide, by decide, ?_⟩
  · have e0 : hexDigitChar 0 = '0' := by decide
    have e1 : hexDigitChar 1 = '1' := by decide
    have e2 : hexDigitChar 2 = '2' := by decide
    have e4 : hexDigitChar 4 = '4' := by decide
    have e5 : hexDigitChar 5 = '5' := by decide
    have e11 : hexDigitChar 11 = 'b' := by decide
    have e13 : hexDigitChar 13 = 'd' := by decide
    have e14 : hexDigitChar 14 = 'e' := by decide
    have e15 : hexDigitChar 15 = 'f' := by decide
    simp [save_records, natToHexRev, toHexPad, e0, e1, e2, e4, e5, e11, e13, e14, e15,
      List.replicate]
  · simp only [contiguousFrom, List.length_replicate]
    intro h
    omega

end Wdcloader
